import Mathlib

/-!
Shallow embedding of the yolov5_tone_blur_network training pipeline
(`src/train.py`, `src/train2_0602_qf80_8.py`, `src/val2_0602_qf80_8.py`).

Tensors along the block axis are modelled as Lean lists; real-valued
tensor entries are modelled as exact rationals (`ℚ`) where only field
operations occur, and as reals (`ℝ`) where transcendental functions
(`exp`, `log`, `tanh`) occur.  Exact equalities proved over `ℚ` subsume
the floating-point-tolerance phrasing of the specification.
-/

namespace ToneBlur

/-! ## Delta encoding (`delta_encode`, train2_0602_qf80_8.py lines 125-136) -/

/-- The DC channel `coefs[..., 0:1]`: the first coefficient of each
block, taken along the block-sequence axis. -/
def dcChannel (coefs : List (List ℚ)) : List ℚ :=
  coefs.map (fun b => b.headI)

/-- The AC channel `coefs[..., 1:]`: the remaining coefficients of each
block. -/
def acChannel (coefs : List (List ℚ)) : List (List ℚ) :=
  coefs.map (fun b => b.drop 1)

/-- Embeds `torch.cat([dc[..., 0:1, :], dc[..., 1:, :] - dc[..., :-1, :]], dim=-2)`:
the first DC coefficient is kept, each later one is replaced by its
difference from the immediately preceding one. -/
def deltaDC (dc : List ℚ) : List ℚ :=
  dc.take 1 ++ List.zipWith (fun a b => a - b) (dc.drop 1) dc

/-- Embeds `delta_encode`: split each block into DC and AC parts, delta-encode
the DC channel along the block axis, and re-attach the AC coefficients
unchanged (`torch.cat([dc, ac], dim=-1)`). -/
def delta_encode (coefs : List (List ℚ)) : List (List ℚ) :=
  List.zipWith (fun d a => d :: a) (deltaDC (dcChannel coefs)) (acChannel coefs)

/-- Cumulative sum along the block axis (`torch.cumsum(·, dim=-2)`), the
prefix-sum decoder for the delta-encoded DC channel. -/
def cumsum : List ℚ → List ℚ
  | [] => []
  | x :: xs => x :: (cumsum xs).map (fun y => x + y)

/-- The prefix-sum decode: cumulative sum on the DC channel, AC channels
unchanged. -/
def delta_decode (coefs : List (List ℚ)) : List (List ℚ) :=
  List.zipWith (fun d a => d :: a) (cumsum (dcChannel coefs)) (acChannel coefs)

theorem cumsum_shift (p : ℚ) (xs : List ℚ) :
    (cumsum (List.zipWith (fun a b => a - b) xs (p :: xs))).map (fun y => p + y) = xs := by
  induction xs generalizing p with
  | nil => simp [cumsum]
  | cons y ys ih =>
      simp only [List.zipWith_cons_cons, cumsum, List.map_cons, List.map_map]
      have h1 : p + (y - p) = y := by ring
      have h2 : List.map ((fun z => p + z) ∘ fun z => y - p + z)
          (cumsum (List.zipWith (fun a b => a - b) ys (y :: ys)))
          = List.map (fun z => y + z) (cumsum (List.zipWith (fun a b => a - b) ys (y :: ys))) := by
        apply List.map_congr_left
        intro a _
        simp only [Function.comp_apply]
        ring
      rw [h1]
      congr 1
      rw [h2]
      exact ih y

theorem deltaDC_cons (x : ℚ) (xs : List ℚ) :
    deltaDC (x :: xs) = x :: List.zipWith (fun a b => a - b) xs (x :: xs) := by
  simp [deltaDC]

theorem cumsum_deltaDC (dc : List ℚ) : cumsum (deltaDC dc) = dc := by
  cases dc with
  | nil => rfl
  | cons x xs =>
      rw [deltaDC_cons]
      simp only [cumsum]
      rw [cumsum_shift]

theorem deltaDC_length (dc : List ℚ) : (deltaDC dc).length = dc.length := by
  cases dc with
  | nil => simp [deltaDC]
  | cons x xs => simp [deltaDC, List.length_zipWith]

theorem map_headI_zipWith_cons (ds : List ℚ) (as : List (List ℚ))
    (hlen : ds.length = as.length) :
    (List.zipWith (fun d a => d :: a) ds as).map (fun b => b.headI) = ds := by
  induction ds generalizing as with
  | nil => simp
  | cons d ds ih =>
      cases as with
      | nil => simp at hlen
      | cons a as =>
          simp only [List.zipWith_cons_cons, List.map_cons]
          rw [ih as (by simpa using hlen)]
          rfl

theorem map_drop1_zipWith_cons (ds : List ℚ) (as : List (List ℚ))
    (hlen : ds.length = as.length) :
    (List.zipWith (fun d a => d :: a) ds as).map (fun b => b.drop 1) = as := by
  induction ds generalizing as with
  | nil =>
      cases as with
      | nil => simp
      | cons a as => simp at hlen
  | cons d ds ih =>
      cases as with
      | nil => simp at hlen
      | cons a as =>
          simp only [List.zipWith_cons_cons, List.map_cons]
          rw [ih as (by simpa using hlen)]
          rfl

theorem delta_encode_len_aux (coefs : List (List ℚ)) :
    (deltaDC (dcChannel coefs)).length = (acChannel coefs).length := by
  simp [deltaDC_length, dcChannel, acChannel]

theorem dcChannel_delta_encode (coefs : List (List ℚ)) :
    dcChannel (delta_encode coefs) = deltaDC (dcChannel coefs) := by
  unfold delta_encode
  rw [show dcChannel (List.zipWith (fun d a => d :: a) (deltaDC (dcChannel coefs))
        (acChannel coefs))
      = (List.zipWith (fun d a => d :: a) (deltaDC (dcChannel coefs))
        (acChannel coefs)).map (fun b => b.headI) from rfl]
  exact map_headI_zipWith_cons _ _ (delta_encode_len_aux coefs)

theorem acChannel_delta_encode (coefs : List (List ℚ)) :
    acChannel (delta_encode coefs) = acChannel coefs := by
  unfold delta_encode
  rw [show acChannel (List.zipWith (fun d a => d :: a) (deltaDC (dcChannel coefs))
        (acChannel coefs))
      = (List.zipWith (fun d a => d :: a) (deltaDC (dcChannel coefs))
        (acChannel coefs)).map (fun b => b.drop 1) from rfl]
  exact map_drop1_zipWith_cons _ _ (delta_encode_len_aux coefs)

theorem zipWith_cons_headI_drop (coefs : List (List ℚ)) (h : ∀ b ∈ coefs, b ≠ []) :
    List.zipWith (fun d a => d :: a) (dcChannel coefs) (acChannel coefs) = coefs := by
  induction coefs with
  | nil => simp [dcChannel, acChannel]
  | cons b bs ih =>
      simp only [dcChannel, acChannel, List.map_cons, List.zipWith_cons_cons] at ih ⊢
      have hb : b ≠ [] := h b (List.mem_cons_self b bs)
      cases b with
      | nil => exact absurd rfl hb
      | cons x xs =>
          simp only [List.headI, List.drop_succ_cons, List.drop_zero, List.cons.injEq,
            true_and]
          exact ih (fun c hc => h c (List.mem_cons_of_mem _ hc))

theorem delta_decode_delta_encode (coefs : List (List ℚ)) (h : ∀ b ∈ coefs, b ≠ []) :
    delta_decode (delta_encode coefs) = coefs := by
  unfold delta_decode
  rw [dcChannel_delta_encode, acChannel_delta_encode, cumsum_deltaDC]
  exact zipWith_cons_headI_drop coefs h

theorem deltaDC_getD (dc : List ℚ) (i : ℕ) (h : i + 1 < dc.length) :
    (deltaDC dc).getD (i + 1) 0 = dc.getD (i + 1) 0 - dc.getD i 0 := by
  cases dc with
  | nil => simp at h
  | cons x xs =>
      rw [deltaDC_cons, List.getD_cons_succ, List.getD_cons_succ]
      have hi : i < xs.length := by
        simpa using Nat.lt_of_succ_lt_succ h
      have hxi : i < (x :: xs).length := by simp; omega
      have hzi : i < (List.zipWith (fun a b => a - b) xs (x :: xs)).length := by
        simp only [List.length_zipWith, List.length_cons]
        omega
      rw [List.getD_eq_getElem _ _ hzi, List.getElem_zipWith,
        List.getD_eq_getElem _ _ hi, List.getD_eq_getElem _ _ hxi]

theorem dcChannel_length (coefs : List (List ℚ)) :
    (dcChannel coefs).length = coefs.length := by
  simp [dcChannel]

/-- C3: `delta_encode` keeps the first block's DC coefficient unchanged and
replaces every later block's DC coefficient with its difference from the
immediately preceding block's DC coefficient, while the AC coefficients of
every block pass through unchanged; the prefix-sum decode (cumulative sum
along the block axis on the DC channel, AC channels unchanged) reconstructs
the input exactly — in particular within tolerance `1e-5`. -/
theorem delta_encode_dc_diff_ac_id_roundtrip (coefs : List (List ℚ))
    (h : ∀ b ∈ coefs, b.length = 64) :
    (dcChannel (delta_encode coefs)).take 1 = (dcChannel coefs).take 1 ∧
    (∀ i : ℕ, i + 1 < coefs.length →
      (dcChannel (delta_encode coefs)).getD (i + 1) 0
        = (dcChannel coefs).getD (i + 1) 0 - (dcChannel coefs).getD i 0) ∧
    acChannel (delta_encode coefs) = acChannel coefs ∧
    delta_decode (delta_encode coefs) = coefs := by
  have hne : ∀ b ∈ coefs, b ≠ [] := by
    intro b hb hnil
    have hlen := h b hb
    rw [hnil] at hlen
    simp at hlen
  refine ⟨?_, ?_, acChannel_delta_encode coefs, delta_decode_delta_encode coefs hne⟩
  · rw [dcChannel_delta_encode]
    cases dcChannel coefs with
    | nil => rfl
    | cons x xs =>
        rw [deltaDC_cons]
        simp
  · intro i hi
    rw [dcChannel_delta_encode]
    apply deltaDC_getD
    rw [dcChannel_length]
    exact hi

/-- Concrete input for the delta-encoding round trip: three 64-coefficient
blocks. -/
def wBlocks : List (List ℚ) :=
  [3 :: List.replicate 63 1, 7 :: List.replicate 63 2, 2 :: List.replicate 63 5]

theorem delta_encode_dc_diff_ac_id_roundtrip_witness :
    (∀ b ∈ wBlocks, b.length = 64) ∧
    ((dcChannel (delta_encode wBlocks)).take 1 = (dcChannel wBlocks).take 1 ∧
    (∀ i : ℕ, i + 1 < wBlocks.length →
      (dcChannel (delta_encode wBlocks)).getD (i + 1) 0
        = (dcChannel wBlocks).getD (i + 1) 0 - (dcChannel wBlocks).getD i 0) ∧
    acChannel (delta_encode wBlocks) = acChannel wBlocks ∧
    delta_decode (delta_encode wBlocks) = wBlocks) :=
  ⟨by decide, delta_encode_dc_diff_ac_id_roundtrip wBlocks (by decide)⟩

/-! ## Combined loss (train.py line 522, train2_0602_qf80_8.py line 757) -/

/-- Embeds train.py line 522, `total_loss = 40 * bpp_loss + loss`, in the
downscaling variant.  The step index `ni` is passed explicitly to record
that the expression reads no step-dependent state. -/
def trainPyTotalLoss (ni : ℕ) (bpp_loss loss : ℚ) : ℚ :=
  40 * bpp_loss + loss

/-- Embeds train2_0602_qf80_8.py line 757, `total_loss = 1 * bpp_loss + 8 * loss`,
in the luminance/blur variant.  The step index `ni` is passed explicitly to
record that the expression reads no step-dependent state. -/
def train2TotalLoss (ni : ℕ) (bpp_loss loss : ℚ) : ℚ :=
  1 * bpp_loss + 8 * loss

/-- C1: in every training step the combined scalar loss is exactly the fixed
weighted sum of the bpp estimate and the detection loss — weights 40:1 in the
downscaling variant and 1:8 in the luminance/blur variant — and the weights
do not vary with the step index. -/
theorem combined_loss_fixed_weights :
    ∀ (ni ni' : ℕ) (bpp_loss loss : ℚ),
      trainPyTotalLoss ni bpp_loss loss = 40 * bpp_loss + 1 * loss ∧
      train2TotalLoss ni bpp_loss loss = 1 * bpp_loss + 8 * loss ∧
      trainPyTotalLoss ni bpp_loss loss = trainPyTotalLoss ni' bpp_loss loss ∧
      train2TotalLoss ni bpp_loss loss = train2TotalLoss ni' bpp_loss loss := by
  intro ni ni' bpp_loss loss
  refine ⟨?_, rfl, rfl, rfl⟩
  unfold trainPyTotalLoss
  ring

/-! ## Log-scale feature transform (train2_0602_qf80_8.py lines 731-733,
val2_0602_qf80_8.py line 505) -/

/-- Embeds `(torch.log(torch.abs(blocks) + 1)) / (torch.log(torch.Tensor([2])))`
for a single coefficient. -/
noncomputable def logFeature (c : ℝ) : ℝ :=
  Real.log (|c| + 1) / Real.log 2

/-- The log-scale transform applied elementwise to a coefficient sequence. -/
noncomputable def logFeatureMap (cs : List ℝ) : List ℝ :=
  cs.map logFeature

/-- C7: the feature fed to the bit-rate estimator is `log2(|c| + 1)`
elementwise: `log(|c| + 1) / log 2` equals `logb 2 (|c| + 1)` for every real
coefficient, and the transform is applied to every element. -/
theorem log_feature_is_log2 :
    (∀ c : ℝ, logFeature c = Real.logb 2 (|c| + 1)) ∧
    ∀ cs : List ℝ, logFeatureMap cs = cs.map (fun c => Real.logb 2 (|c| + 1)) := by
  constructor
  · intro c
    rw [logFeature, Real.log_div_log]
  · intro cs
    unfold logFeatureMap
    apply List.map_congr_left
    intro c _
    rw [logFeature, Real.log_div_log]

/-! ## Control-network output activations (train.py lines 220-225,
train2_0602_qf80_8.py lines 258-277) -/

/-- `torch.sigmoid`. -/
noncomputable def sigmoid (x : ℝ) : ℝ :=
  1 / (1 + Real.exp (-x))

/-- Embeds the final activation of `DownscalingNetwork.forward`
(train.py line 224): a `Tanh` output mapped through `(x + 1) / 2 * 3 + 1`. -/
noncomputable def downscalingForward (x : ℝ) : ℝ :=
  (Real.tanh x + 1) / 2 * 3 + 1

/-- Embeds the final activation of `DynamicLuminanceWeightNetwork.forward`
(train2 lines 274-276): `sigmoid(x) * 0.5 + 0.5` applied independently to
each of the two pre-activation outputs. -/
noncomputable def dynamicLuminanceForward (x0 x1 : ℝ) : ℝ × ℝ :=
  (sigmoid x0 * 0.5 + 0.5, sigmoid x1 * 0.5 + 0.5)

/-- Embeds `torch.clamp(·, min=0, max=5)` (train2 line 654). -/
noncomputable def clamp05 (x : ℝ) : ℝ :=
  min (max x 0) 5

theorem tanh_bounds (x : ℝ) : -1 < Real.tanh x ∧ Real.tanh x < 1 := by
  have key : ∀ y : ℝ, Real.tanh y < 1 := by
    intro y
    rw [Real.tanh_eq_sinh_div_cosh]
    exact (div_lt_one (Real.cosh_pos y)).mpr (Real.sinh_lt_cosh y)
  refine ⟨?_, key x⟩
  have h := key (-x)
  rw [Real.tanh_neg] at h
  linarith

theorem sigmoid_bounds (x : ℝ) : 0 < sigmoid x ∧ sigmoid x < 1 := by
  have he : 0 < Real.exp (-x) := Real.exp_pos (-x)
  constructor
  · apply div_pos one_pos
    linarith
  · rw [sigmoid, div_lt_one (by linarith)]
    linarith

/-- C4: every control-network output lies within its declared bound after the
final activation — the `DownscalingNetwork` scalar in `[1, 4]`, each of the
`DynamicLuminanceWeightNetwork` outputs in `[0.5, 1]` — so the downstream hard
clamp to `[0, 5]` never alters the values. -/
theorem control_network_output_bounds :
    ∀ x y0 y1 : ℝ,
      downscalingForward x ∈ Set.Icc (1 : ℝ) 4 ∧
      (dynamicLuminanceForward y0 y1).1 ∈ Set.Icc (0.5 : ℝ) 1 ∧
      (dynamicLuminanceForward y0 y1).2 ∈ Set.Icc (0.5 : ℝ) 1 ∧
      clamp05 (dynamicLuminanceForward y0 y1).1 = (dynamicLuminanceForward y0 y1).1 ∧
      clamp05 (dynamicLuminanceForward y0 y1).2 = (dynamicLuminanceForward y0 y1).2 := by
  intro x y0 y1
  obtain ⟨ht1, ht2⟩ := tanh_bounds x
  obtain ⟨hs0a, hs0b⟩ := sigmoid_bounds y0
  obtain ⟨hs1a, hs1b⟩ := sigmoid_bounds y1
  have hb0 : sigmoid y0 * 0.5 + 0.5 ∈ Set.Icc (0.5 : ℝ) 1 := by
    constructor <;> nlinarith
  have hb1 : sigmoid y1 * 0.5 + 0.5 ∈ Set.Icc (0.5 : ℝ) 1 := by
    constructor <;> nlinarith
  have hclamp : ∀ v : ℝ, v ∈ Set.Icc (0.5 : ℝ) 1 → clamp05 v = v := by
    intro v hv
    obtain ⟨hv1, hv2⟩ := hv
    rw [clamp05, max_eq_left (by linarith), min_eq_left (by linarith)]
  refine ⟨⟨?_, ?_⟩, hb0, hb1, hclamp _ hb0, hclamp _ hb1⟩
  · rw [downscalingForward]
    nlinarith
  · rw [downscalingForward]
    nlinarith

/-! ## Reinhard tone mapping (`ReinhardToneMapping.forward`,
train2_0602_qf80_8.py lines 285-315) -/

/-- The epsilon added at the two division sites of
`ReinhardToneMapping.forward` (`1e-6`). -/
def lumEps : ℚ :=
  1 / 1000000

/-- Embeds `0.2126 * R + 0.7152 * G + 0.0722 * B` (train2 line 302). -/
def luminance (r g b : ℚ) : ℚ :=
  0.2126 * r + 0.7152 * g + 0.0722 * b

/-- Embeds `luminance / (1 + luminance / (weights + 1e-6))` (train2 line 304). -/
def ldrLuminance (lum w : ℚ) : ℚ :=
  lum / (1 + lum / (w + lumEps))

/-- Embeds `scale_factor = ldr_luminance / (luminance + 1e-6)` (train2 line 306). -/
def scaleFactor (lum w : ℚ) : ℚ :=
  ldrLuminance lum w / (lum + lumEps)

/-- Embeds one channel of `ldr_image = hdr_image * scale_factor` followed by
the `white_point != 1.0` branch (train2 lines 310-314). -/
def reinhardForward (whitePoint p lum w : ℚ) : ℚ :=
  if whitePoint = 1 then p * scaleFactor lum w
  else p * scaleFactor lum w * whitePoint

/-- C9: for pixel values in `[0, 1]` and a positive luminance weight, the
Reinhard scale factor (white point `1.0`) lies in `[0, 1)`, so every output
channel lies in `[0, input channel]`: tone mapping never increases a pixel. -/
theorem reinhard_tone_mapping_contractive
    (r g b w : ℚ) (hr0 : 0 ≤ r) (hr1 : r ≤ 1) (hg0 : 0 ≤ g) (hg1 : g ≤ 1)
    (hb0 : 0 ≤ b) (hb1 : b ≤ 1) (hw : 0 < w) :
    0 ≤ scaleFactor (luminance r g b) w ∧ scaleFactor (luminance r g b) w < 1 ∧
    (0 ≤ reinhardForward 1 r (luminance r g b) w ∧
      reinhardForward 1 r (luminance r g b) w ≤ r) ∧
    (0 ≤ reinhardForward 1 g (luminance r g b) w ∧
      reinhardForward 1 g (luminance r g b) w ≤ g) ∧
    (0 ≤ reinhardForward 1 b (luminance r g b) w ∧
      reinhardForward 1 b (luminance r g b) w ≤ b) := by
  have hL : 0 ≤ luminance r g b := by
    unfold luminance
    nlinarith
  set L := luminance r g b with hLdef
  have hEps : (0 : ℚ) < lumEps := by norm_num [lumEps]
  have hwe : 0 < w + lumEps := by linarith
  have hdiv : 0 ≤ L / (w + lumEps) := div_nonneg hL hwe.le
  have hden : (1 : ℚ) ≤ 1 + L / (w + lumEps) := by linarith
  have hldr0 : 0 ≤ ldrLuminance L w := div_nonneg hL (by linarith)
  have hldrle : ldrLuminance L w ≤ L := div_le_self hL hden
  have hLe : 0 < L + lumEps := by linarith
  have hscale0 : 0 ≤ scaleFactor L w := div_nonneg hldr0 hLe.le
  have hscale1 : scaleFactor L w < 1 := by
    rw [scaleFactor, div_lt_one hLe]
    linarith
  have hchan : ∀ p : ℚ, 0 ≤ p →
      0 ≤ reinhardForward 1 p L w ∧ reinhardForward 1 p L w ≤ p := by
    intro p hp
    rw [reinhardForward, if_pos rfl]
    constructor
    · exact mul_nonneg hp hscale0
    · calc p * scaleFactor L w ≤ p * 1 := by
            apply mul_le_mul_of_nonneg_left hscale1.le hp
        _ = p := mul_one p
  exact ⟨hscale0, hscale1, hchan r hr0, hchan g hg0, hchan b hb0⟩

theorem reinhard_tone_mapping_contractive_witness :
    ((0 : ℚ) ≤ 1/2 ∧ (1/2 : ℚ) ≤ 1 ∧ (0 : ℚ) < 3/4) ∧
    (0 ≤ scaleFactor (luminance (1/2) (1/2) (1/2)) (3/4) ∧
      scaleFactor (luminance (1/2) (1/2) (1/2)) (3/4) < 1 ∧
    (0 ≤ reinhardForward 1 (1/2) (luminance (1/2) (1/2) (1/2)) (3/4) ∧
      reinhardForward 1 (1/2) (luminance (1/2) (1/2) (1/2)) (3/4) ≤ 1/2) ∧
    (0 ≤ reinhardForward 1 (1/2) (luminance (1/2) (1/2) (1/2)) (3/4) ∧
      reinhardForward 1 (1/2) (luminance (1/2) (1/2) (1/2)) (3/4) ≤ 1/2) ∧
    (0 ≤ reinhardForward 1 (1/2) (luminance (1/2) (1/2) (1/2)) (3/4) ∧
      reinhardForward 1 (1/2) (luminance (1/2) (1/2) (1/2)) (3/4) ≤ 1/2)) :=
  ⟨⟨by norm_num, by norm_num, by norm_num⟩,
    reinhard_tone_mapping_contractive (1/2) (1/2) (1/2) (3/4)
      (by norm_num) (by norm_num) (by norm_num) (by norm_num)
      (by norm_num) (by norm_num) (by norm_num)⟩

/-! ## Gaussian blur (`gaussian_blur`, train2_0602_qf80_8.py lines 139-167,
val2_0602_qf80_8.py lines 82-109) -/

/-- Embeds `radius = kernel_size // 2`, which is also the convolution padding. -/
def convRadius (k : ℕ) : ℕ :=
  k / 2

/-- Embeds `kernel = torch.exp(-sq_dist / (2 * sigma**2))` at grid position
`(i, j)`, where `sq_dist = (i - radius)^2 + (j - radius)^2`. -/
noncomputable def gaussKernelEntry (k : ℕ) (sigma : ℝ) (i j : Fin k) : ℝ :=
  Real.exp (-((((i : ℕ) : ℝ) - (convRadius k : ℝ)) ^ 2
    + (((j : ℕ) : ℝ) - (convRadius k : ℝ)) ^ 2) / (2 * sigma ^ 2))

/-- `kernel.sum()`. -/
noncomputable def gaussKernelSum (k : ℕ) (sigma : ℝ) : ℝ :=
  ∑ i : Fin k, ∑ j : Fin k, gaussKernelEntry k sigma i j

/-- Embeds `kernel = kernel / kernel.sum()`. -/
noncomputable def normalizedGaussKernel (k : ℕ) (sigma : ℝ) (i j : Fin k) : ℝ :=
  gaussKernelEntry k sigma i j / gaussKernelSum k sigma

/-- Output spatial extent of `F.conv2d` with stride 1 and the given padding:
`n + 2 * padding - k + 1`. -/
def conv2dOutDim (n k p : ℕ) : ℕ :=
  n + 2 * p - k + 1

/-- Shape returned by `gaussian_blur` on a `(B, C, H, W)` input: depthwise
`F.conv2d` with `padding = kernel_size // 2` preserves batch and channel
dimensions and maps the spatial dimensions through `conv2dOutDim`. -/
def gaussianBlurShape (bsz c h w k : ℕ) : ℕ × ℕ × ℕ × ℕ :=
  (bsz, c, conv2dOutDim h k (convRadius k), conv2dOutDim w k (convRadius k))

/-- C10: for every `(B, C, H, W)` image, odd `kernel_size` and positive
`sigma`, `gaussian_blur` returns a tensor of the same shape — the padding
`kernel_size // 2` exactly compensates the kernel extent — and the Gaussian
kernel it convolves with is normalized so that its entries sum to 1. -/
theorem gaussian_blur_shape_and_kernel_sum
    (bsz c h w k : ℕ) (sigma : ℝ) (hk : Odd k) (hs : 0 < sigma)
    (hh : 1 ≤ h) (hw : 1 ≤ w) :
    gaussianBlurShape bsz c h w k = (bsz, c, h, w) ∧
    ∑ i : Fin k, ∑ j : Fin k, normalizedGaussKernel k sigma i j = 1 := by
  obtain ⟨m, hm⟩ := hk
  have hk0 : 0 < k := by omega
  constructor
  · unfold gaussianBlurShape conv2dOutDim convRadius
    have h1 : h + 2 * (k / 2) - k + 1 = h := by omega
    have h2 : w + 2 * (k / 2) - k + 1 = w := by omega
    rw [h1, h2]
  · have hpos : 0 < gaussKernelSum k sigma := by
      apply Finset.sum_pos
      · intro i _
        apply Finset.sum_pos
        · intro j _
          exact Real.exp_pos _
        · exact ⟨⟨0, hk0⟩, Finset.mem_univ _⟩
      · exact ⟨⟨0, hk0⟩, Finset.mem_univ _⟩
    unfold normalizedGaussKernel
    rw [show (∑ i : Fin k, ∑ j : Fin k, gaussKernelEntry k sigma i j / gaussKernelSum k sigma)
        = (∑ i : Fin k, ∑ j : Fin k, gaussKernelEntry k sigma i j) / gaussKernelSum k sigma by
      rw [Finset.sum_div]
      apply Finset.sum_congr rfl
      intro i _
      rw [Finset.sum_div]]
    exact div_self (ne_of_gt hpos)

theorem gaussian_blur_shape_and_kernel_sum_witness :
    (Odd 3 ∧ (0 : ℝ) < 1 ∧ 1 ≤ 8 ∧ 1 ≤ 8) ∧
    (gaussianBlurShape 2 3 8 8 3 = (2, 3, 8, 8) ∧
      ∑ i : Fin 3, ∑ j : Fin 3, normalizedGaussKernel 3 (1 : ℝ) i j = 1) :=
  ⟨⟨⟨1, by norm_num⟩, by norm_num, by norm_num, by norm_num⟩,
    gaussian_blur_shape_and_kernel_sum 2 3 8 8 3 1 ⟨1, by norm_num⟩
      (by norm_num) (by norm_num) (by norm_num)⟩

/-! ## bpp estimate normalization (train2_0602_qf80_8.py lines 735-739,
val2_0602_qf80_8.py lines 516-520) -/

/-- Embeds `rearrange(pred_code_len, "(b p1) 1 -> b p1", b=B)`: regroup the
flat per-block code-length vector into `bN` rows of `p` entries. -/
def rearrangeBP (bN p : ℕ) (flat : List ℚ) : List (List ℚ) :=
  (List.range bN).map (fun bi => (flat.drop (bi * p)).take p)

/-- Embeds the bpp computation: `torch.sum(·, dim=1)`, then `torch.mean`,
then division by `quantized_dct.shape[1] * shape[2] * shape[3]` (`C * H * W`). -/
def bppLossCode (bN p c h w : ℕ) (flat : List ℚ) : ℚ :=
  (((rearrangeBP bN p flat).map (fun l => l.sum)).sum
      / (((rearrangeBP bN p flat).map (fun l => l.sum)).length : ℚ))
    / ((c : ℚ) * (h : ℚ) * (w : ℚ))

/-- The specification's formula: sum of per-block predicted code lengths,
averaged over the batch, normalized by the total coefficient count
`C * H * W` of one image. -/
def bppSpec (c h w : ℕ) (perImage : List (List ℚ)) : ℚ :=
  ((perImage.map (fun l => l.sum)).sum / (perImage.length : ℚ))
    / ((c : ℚ) * (h : ℚ) * (w : ℚ))

theorem rearrangeBP_join (p : ℕ) (ls : List (List ℚ)) (hp : ∀ l ∈ ls, l.length = p) :
    rearrangeBP ls.length p ls.flatten = ls := by
  induction ls with
  | nil => rfl
  | cons l rest ih =>
      have hl : l.length = p := hp l (List.mem_cons_self _ _)
      simp only [rearrangeBP, List.length_cons, List.range_succ_eq_map, List.map_cons,
        List.map_map, List.flatten_cons, Nat.zero_mul, List.drop_zero]
      have h0 : (l ++ rest.flatten).take p = l := by
        rw [← hl]
        exact List.take_left l rest.flatten
      rw [h0]
      have hmap : List.map ((fun bi => ((l ++ rest.flatten).drop (bi * p)).take p) ∘ Nat.succ)
          (List.range rest.length)
          = List.map (fun bi => ((rest.flatten).drop (bi * p)).take p)
            (List.range rest.length) := by
        apply List.map_congr_left
        intro bi _
        simp only [Function.comp_apply]
        have hstep : Nat.succ bi * p = p + bi * p := by
          rw [Nat.succ_mul, Nat.add_comm]
        rw [hstep, ← List.drop_drop]
        have hdl : (l ++ rest.flatten).drop p = rest.flatten := by
          rw [← hl]
          exact List.drop_left l rest.flatten
        rw [hdl]
      rw [hmap]
      have ht := ih (fun x hx => hp x (List.mem_cons_of_mem _ hx))
      simp only [rearrangeBP] at ht
      rw [ht]

/-- C6: the scalar bpp estimate equals the sum of the estimator's per-block
predicted code lengths, averaged over the batch, divided by
`channels * height * width` of the quantized DCT tensor. -/
theorem bpp_loss_normalization (c h w p : ℕ) (perImage : List (List ℚ))
    (hp : ∀ l ∈ perImage, l.length = p) :
    bppLossCode perImage.length p c h w perImage.flatten = bppSpec c h w perImage := by
  unfold bppLossCode bppSpec
  rw [rearrangeBP_join p perImage hp]
  simp

theorem bpp_loss_normalization_witness :
    (∀ l ∈ [[(1 : ℚ), 2], [3, 4]], l.length = 2) ∧
    bppLossCode 2 2 3 8 8 ([[(1 : ℚ), 2], [3, 4]] : List (List ℚ)).flatten
      = bppSpec 3 8 8 [[(1 : ℚ), 2], [3, 4]] :=
  ⟨by decide, bpp_loss_normalization 3 8 8 2 [[(1 : ℚ), 2], [3, 4]] (by decide)⟩

/-! ## Frozen parameters (train.py lines 249-254, train2_0602_qf80_8.py
lines 232-233 and 400-404) -/

/-- A leaf parameter tensor: its value, its `requires_grad` flag and its
accumulated gradient (`None` until a backward pass writes it). -/
structure TParam where
  val : ℚ
  requiresGrad : Bool
  grad : Option ℚ
deriving DecidableEq

/-- A freshly constructed module parameter: `requires_grad=True`, `grad=None`. -/
def mkParam (v : ℚ) : TParam :=
  ⟨v, true, none⟩

/-- Embeds `param.requires_grad = False` (train.py 249-252, train2 232-233
for the ResNet feature extractor and train2 403-404 for the bit estimator). -/
def freezeParam (p : TParam) : TParam :=
  { p with requiresGrad := false }

/-- Autograd backward semantics: the pass accumulates a gradient only into
leaves with `requires_grad=True`; frozen leaves keep `grad=None`. -/
def backwardParam (g : ℚ) (p : TParam) : TParam :=
  if p.requiresGrad then { p with grad := some (p.grad.getD 0 + g) } else p

/-- Optimizer-step semantics: `torch.optim` skips parameters whose `grad`
is `None` and applies a gradient update to the rest (first-order part). -/
def optStepParam (lr : ℚ) (p : TParam) : TParam :=
  match p.grad with
  | some g => { p with val := p.val - lr * g }
  | none => p

/-- One effective training step on a parameter list: the shared backward
pass followed by the optimizer step. -/
def trainStepParams (lr : ℚ) (gs : List ℚ) (ps : List TParam) : List TParam :=
  (List.zipWith backwardParam gs ps).map (optStepParam lr)

/-- Parameter lists of the frozen components (control-network ResNet
feature extractor, bit-rate estimator) after the source's freeze loops. -/
def frozenSetup (vals : List ℚ) : List TParam :=
  vals.map (fun v => freezeParam (mkParam v))

theorem trainStep_frozen (vals gs : List ℚ) (lr : ℚ)
    (hlen : gs.length = vals.length) :
    (trainStepParams lr gs (frozenSetup vals)).map (fun p => p.val) = vals := by
  induction vals generalizing gs with
  | nil =>
      cases gs with
      | nil => rfl
      | cons g gsr => simp at hlen
  | cons v vs ih =>
      cases gs with
      | nil => simp at hlen
      | cons g gsr =>
          simp only [frozenSetup, List.map_cons, trainStepParams, List.zipWith_cons_cons]
          have hhead : optStepParam lr (backwardParam g (freezeParam (mkParam v)))
              = freezeParam (mkParam v) := by
            simp [backwardParam, freezeParam, mkParam, optStepParam]
          simp only [List.map_cons, hhead]
          have ht := ih gsr (by simpa using hlen)
          simp only [trainStepParams, frozenSetup] at ht
          rw [ht]
          rfl

theorem trainStep_trainable (lr v g : ℚ) :
    trainStepParams lr [g] [mkParam v]
      = [{ val := v - lr * g, requiresGrad := true, grad := some g }] := by
  simp [trainStepParams, backwardParam, mkParam, optStepParam]

/-- C5: after a training step, parameters frozen before training (the control
network's pretrained ResNet feature extractor and the bit-rate estimator,
all set `requires_grad=False`) are identical to their pre-step values — the
backward pass gives them no gradient and the optimizer skips them — while a
trainable head or detector parameter may change. -/
theorem frozen_params_unchanged (vals gs : List ℚ) (lr : ℚ)
    (hlen : gs.length = vals.length) :
    (trainStepParams lr gs (frozenSetup vals)).map (fun p => p.val) = vals ∧
    ∀ v g : ℚ, trainStepParams lr [g] [mkParam v]
      = [{ val := v - lr * g, requiresGrad := true, grad := some g }] :=
  ⟨trainStep_frozen vals gs lr hlen, fun v g => trainStep_trainable lr v g⟩

theorem frozen_params_unchanged_witness :
    ([(5 : ℚ), 7].length = [(2 : ℚ), 3].length) ∧
    ((trainStepParams (1/10) [5, 7] (frozenSetup [2, 3])).map (fun p => p.val) = [2, 3] ∧
    ∀ v g : ℚ, trainStepParams (1/10) [g] [mkParam v]
      = [{ val := v - 1/10 * g, requiresGrad := true, grad := some g }]) :=
  ⟨by decide, frozen_params_unchanged [2, 3] [5, 7] (1/10) (by decide)⟩

/-! ## Backward-pass and optimizer-step ordering
(train.py lines 529-555, train2_0602_qf80_8.py lines 759-778) -/

/-- The scalar loss a backward pass is invoked on. -/
inductive LossTag
  | combined
  | detection
deriving DecidableEq

/-- The two co-trained optimizers. -/
inductive OptId
  | detector
  | control
deriving DecidableEq

/-- Events of one training step, in program order. -/
inductive StepEvent
  | backward (scaled : Bool) (tag : LossTag)
  | unscale (o : OptId)
  | clipGrad
  | optStep (o : OptId)
  | scalerUpdate
  | zeroGrad (o : OptId)
  | emaUpdate
deriving DecidableEq

/-- Event trace of one batch of the luminance/blur variant
(train2 lines 759-778); `doStep` is the accumulation gate
`ni - last_opt_step >= accumulate`. -/
def train2StepEvents (doStep : Bool) : List StepEvent :=
  [.backward true .combined] ++
    (if doStep then
      [.unscale .detector, .unscale .control, .clipGrad, .clipGrad,
        .optStep .control, .scalerUpdate, .optStep .detector, .scalerUpdate,
        .zeroGrad .control, .zeroGrad .detector, .emaUpdate]
    else [])

/-- Event trace of one batch of the downscaling variant (train.py lines
529-555): `total_loss.backward(retain_graph=True)` (not routed through the
gradient scaler), then `scaler.scale(loss).backward()` on the detection loss
alone, then the gated optimizer block. -/
def trainPyStepEvents (doStep : Bool) : List StepEvent :=
  [.backward false .combined, .backward true .detection] ++
    (if doStep then
      [.unscale .detector, .clipGrad, .optStep .control, .zeroGrad .control,
        .optStep .detector, .scalerUpdate, .zeroGrad .detector, .emaUpdate]
    else [])

def isBackward : StepEvent → Bool
  | .backward _ _ => true
  | _ => false

def isOptStep : StepEvent → Bool
  | .optStep _ => true
  | _ => false

/-- Number of backward passes in a trace. -/
def backwardCount (es : List StepEvent) : ℕ :=
  (es.filter isBackward).length

/-- The prefix of a trace before the first optimizer step. -/
def beforeFirstOptStep (es : List StepEvent) : List StepEvent :=
  es.takeWhile (fun e => !isOptStep e)

/-- C2 counterexample: in the downscaling variant (train.py), a step that
reaches the optimizer block performs two backward passes, the second being a
separately-scaled backward on the detection loss alone, and it occurs before
either optimizer steps — refuting the claim that every training step performs
exactly one backward pass. -/
theorem trainPy_second_backward_before_steps :
    backwardCount (trainPyStepEvents true) = 2 ∧
    StepEvent.backward true .detection ∈ beforeFirstOptStep (trainPyStepEvents true) ∧
    StepEvent.optStep .control ∈ trainPyStepEvents true ∧
    StepEvent.optStep .detector ∈ trainPyStepEvents true := by
  decide

/-- C2 (amended): in the luminance/blur variant every step performs exactly
one backward pass, on the scaler-scaled combined loss, before either
optimizer steps; in the downscaling variant every step performs two backward
passes — an unscaled one on the combined loss then a scaler-scaled one on the
detection loss alone — but both still complete before either optimizer steps. -/
theorem backward_pass_ordering (doStep : Bool) :
    backwardCount (train2StepEvents doStep) = 1 ∧
    StepEvent.backward true .combined ∈ beforeFirstOptStep (train2StepEvents doStep) ∧
    backwardCount (trainPyStepEvents doStep) = 2 ∧
    StepEvent.backward false .combined ∈ beforeFirstOptStep (trainPyStepEvents doStep) ∧
    StepEvent.backward true .detection ∈ beforeFirstOptStep (trainPyStepEvents doStep) := by
  cases doStep <;> decide

/-! ## Checkpoint without a control-network entry (train.py lines 240-243,
train2_0602_qf80_8.py lines 411-418) -/

/-- The log lines the checkpoint-loading region can emit.  The region logs
only through `print` and `LOGGER.info`; it contains no warning-level call. -/
inductive SetupLog
  | printedLoadedControl
  | infoTransferred (n m : ℕ)
deriving DecidableEq

/-- Whether a log line of this region is a warning: none is, since the
source region has no `LOGGER.warning` call. -/
def isWarning : SetupLog → Bool :=
  fun _ => false

/-- Embeds train2 lines 411-418: load the `dynamic_luminance_network` state
dict when the checkpoint has that key (printing a confirmation), otherwise
keep the fresh weights and emit the generic transfer-report info line. -/
def loadDynamicLuminance {α : Type} (stored : Option α) (fresh : α) (n m : ℕ) :
    α × List SetupLog :=
  match stored with
  | some sd => (sd, [.printedLoadedControl])
  | none => (fresh, [.infoTransferred n m])

/-- Embeds train.py lines 240-243: load the `downscaling_network` state dict
when present (with a confirmation print); the transfer-report info line is
emitted unconditionally afterwards. -/
def loadDownscaling {α : Type} (stored : Option α) (fresh : α) (n m : ℕ) :
    α × List SetupLog :=
  match stored with
  | some sd => (sd, [.printedLoadedControl, .infoTransferred n m])
  | none => (fresh, [.infoTransferred n m])

/-- C8 counterexample: for a checkpoint with no control-network entry, setup
succeeds and falls back to the fresh weights, but the emitted log is only the
generic transfer-report info line — no warning about the missing entry is
logged, refuting that part of the claim. -/
theorem checkpoint_missing_entry_no_warning :
    (loadDynamicLuminance (none : Option (List ℚ)) [1, 2] 5 7).1 = [1, 2] ∧
    (loadDynamicLuminance (none : Option (List ℚ)) [1, 2] 5 7).2
      = [SetupLog.infoTransferred 5 7] ∧
    (loadDynamicLuminance (none : Option (List ℚ)) [1, 2] 5 7).2.all
      (fun l => !isWarning l) = true ∧
    (loadDownscaling (none : Option (List ℚ)) [1, 2] 5 7).1 = [1, 2] ∧
    (loadDownscaling (none : Option (List ℚ)) [1, 2] 5 7).2.all
      (fun l => !isWarning l) = true := by
  decide

/-- C8 (amended): when the checkpoint record has no control-network entry,
setup does not fail — both variants fall back to the freshly initialized
control-network weights — and when the key is present the stored state dict
is loaded; no warning about a missing entry is logged in either case (the
region logs only confirmations and the generic transfer report). -/
theorem checkpoint_control_entry_fallback {α : Type} (stored : Option α)
    (fresh : α) (n m : ℕ) :
    (loadDynamicLuminance stored fresh n m).1 = stored.getD fresh ∧
    (loadDownscaling stored fresh n m).1 = stored.getD fresh ∧
    (loadDynamicLuminance stored fresh n m).2.all (fun l => !isWarning l) = true ∧
    (loadDownscaling stored fresh n m).2.all (fun l => !isWarning l) = true := by
  cases stored <;> simp [loadDynamicLuminance, loadDownscaling, isWarning]

end ToneBlur
